import Mathlib

/-!
Shallow embedding of the queue and appointment controllers of the
Hospital-Management repository
(`src/backend/src/controllers/queue.controller.js` and the appointment
controller `src/unnamed/part_004`), together with proofs settling the
frozen claims about them.

Conventions of the embedding:
* Mongoose documents become Lean structures; the collections live in a
  single `St` record of lists.  `findOne` / `findById` become
  `List.find?`, `updateMany` / `findByIdAndUpdate` become `List.map`
  with the update applied to the matching documents.
* Every controller returns the (possibly unchanged) state together with
  an `Except`: a thrown `ApiError` aborts before any later write, so an
  error result carries the untouched input state.
* JavaScript `Date` arithmetic is modelled in whole minutes (`Nat`).
* `String.prototype.toLowerCase` is modelled by `jsToLower`, mapping
  `Char.toLower` over the characters.  The appointment controller
  lower-cases the status for validation and for the final write but
  compares the RAW string in its transition guards; the embedding keeps
  that distinction exactly.
-/

namespace Hospital

/-- Status of a queue entry: `waiting`, `in-progress` or `completed`
(queue.model / queue.controller). -/
inductive QStatus where
  | waiting
  | inProgress
  | completed
deriving DecidableEq

/-- Status of an appointment: `pending`, `confirmed`, `completed` or
`cancelled` (appointment controller). -/
inductive AStatus where
  | pending
  | confirmed
  | completed
  | cancelled
deriving DecidableEq

/-- A patient profile: its own id and the id of the owning login user
(the Mongoose findOne on the user field resolves the latter to the former). -/
structure PatientProfile where
  id : Nat
  user : Nat
deriving DecidableEq

/-- A doctor profile: its own id and the id of the owning login user. -/
structure DoctorProfile where
  id : Nat
  user : Nat
deriving DecidableEq

/-- A queue document: references to one doctor and one patient, the
integer position, the estimated service time (minutes) and the status. -/
structure QueueEntry where
  id : Nat
  doctor : Nat
  patient : Nat
  position : Nat
  estimatedTime : Nat
  status : QStatus
deriving DecidableEq

/-- An appointment slot of date, startTime and endTime; the date is an
abstract timestamp. -/
structure Slot where
  date : Nat
  startTime : String
  endTime : String
deriving DecidableEq

/-- An appointment document. -/
structure Appointment where
  id : Nat
  doctor : Nat
  patient : Nat
  slot : Slot
  status : AStatus
deriving DecidableEq

/-- The authenticated caller: `req.user._id` and `req.user.role`. -/
structure Actor where
  userId : Nat
  role : String
deriving DecidableEq

/-- The persistent state: the four collections plus fresh-id counters for
the two collections the controllers insert into. -/
structure St where
  patients : List PatientProfile
  doctors : List DoctorProfile
  entries : List QueueEntry
  appointments : List Appointment
  nextQueueId : Nat
  nextApptId : Nat
deriving DecidableEq

/-- The `ApiError`s thrown by the two controllers, keeping the payload a
claim talks about: the join conflict message interpolates the existing
position, and the cancel guard message names the current status. -/
inductive ApiErr where
  | badRequest (msg : String)
  | notFound (msg : String)
  | forbidden (msg : String)
  | conflictJoin (position : Nat)
  | conflictSlot
  | cancelGuard (current : AStatus)
deriving DecidableEq

/-- Model of `String.prototype.toLowerCase` used by both controllers. -/
def jsToLower (s : String) : String :=
  String.mk (s.data.map Char.toLower)

/-- The patient-profile lookup by owning user id, `Patient.findOne` on
the user field. -/
def findPatientByUser (st : St) (userId : Nat) : Option PatientProfile :=
  st.patients.find? (fun p => p.user == userId)

/-- The doctor-profile lookup by owning user id, `Doctor.findOne` on the
user field. -/
def findDoctorByUser (st : St) (userId : Nat) : Option DoctorProfile :=
  st.doctors.find? (fun d => d.user == userId)

/-- `Doctor.findById(doctorId)`. -/
def findDoctorById (st : St) (doctorId : Nat) : Option DoctorProfile :=
  st.doctors.find? (fun d => d.id == doctorId)

/-- `Queue.findById(entryId)`. -/
def findQueueEntryById (st : St) (entryId : Nat) : Option QueueEntry :=
  st.entries.find? (fun e => e.id == entryId)

/-- `Appointment.findById(appointmentId)`. -/
def findApptById (st : St) (apptId : Nat) : Option Appointment :=
  st.appointments.find? (fun a => a.id == apptId)

/-- Whether a status is waiting or in-progress: the Mongoose filter used by the
duplicate-join check, `getMyQueueStatus` and `getDoctorQueue`. -/
def isActiveQ (s : QStatus) : Bool :=
  s == QStatus.waiting || s == QStatus.inProgress

/-- The duplicate-join filter of `joinQueue` (queue.controller lines
56-60): same doctor, same patient, status waiting or in-progress. -/
def activeEntryFor (doctorId patientId : Nat) (e : QueueEntry) : Bool :=
  e.doctor == doctorId && e.patient == patientId && isActiveQ e.status

/-- The descending-position `Queue.findOne` over the waiting entries of the
doctor, followed by the zero-defaulting access of line 70 of queue.controller:
the largest position among the doctor's waiting entries, `0` if none. -/
def maxWaitingPosition (st : St) (doctorId : Nat) : Nat :=
  (st.entries.filter
      (fun e => e.doctor == doctorId && e.status == QStatus.waiting)).foldr
    (fun e m => max e.position m) 0

/-- `calculateEstimatedTime` (queue.controller lines 9-18):
now + (newPosition - 1) * 15 minutes. -/
def calculateEstimatedTime (now : Nat) (newPosition : Nat) : Nat :=
  now + (newPosition - 1) * 15

/-- `joinQueue` (queue.controller lines 40-86).  Arguments: the state,
the caller's user id, the request body's `doctorId` (absent → 400) and
the current clock in minutes.  Returns the new state and the created
entry, or the original state and the thrown error. -/
def joinQueue (st : St) (userId : Nat) (doctorId : Option Nat) (now : Nat) :
    St × Except ApiErr QueueEntry :=
  match doctorId with
  | none => (st, Except.error (ApiErr.badRequest "Doctor ID is required to join the queue."))
  | some did =>
    match findPatientByUser st userId with
    | none => (st, Except.error (ApiErr.notFound "Patient profile not found. Please complete your profile."))
    | some pat =>
      match findDoctorById st did with
      | none => (st, Except.error (ApiErr.notFound "Doctor not found."))
      | some _ =>
        match st.entries.find? (activeEntryFor did pat.id) with
        | some existingEntry => (st, Except.error (ApiErr.conflictJoin existingEntry.position))
        | none =>
          let nextPosition := maxWaitingPosition st did + 1
          let estimatedTime := calculateEstimatedTime now nextPosition
          let entry : QueueEntry :=
            { id := st.nextQueueId, doctor := did, patient := pat.id,
              position := nextPosition, estimatedTime := estimatedTime,
              status := QStatus.waiting }
          ({ st with entries := st.entries ++ [entry], nextQueueId := st.nextQueueId + 1 },
           Except.ok entry)

/-- The queue authorization of `updateQueueStatus` (lines 102-108):
admin always; a doctor only when the entry's doctor is the doctor
profile owned by the caller. -/
def qAuthorized (st : St) (actor : Actor) (qe : QueueEntry) : Bool :=
  actor.role == "admin" ||
    (actor.role == "doctor" &&
      match findDoctorByUser st actor.userId with
      | some dp => qe.doctor == dp.id
      | none => false)

/-- The validated queue status string mapped into `QStatus`
(the status write; the argument is already
lower-cased and one of "in-progress" / "completed"). -/
def qStatusOfValidated (s : String) : QStatus :=
  if s == "completed" then QStatus.completed else QStatus.inProgress

/-- The status write `Queue.findByIdAndUpdate` applied to the matching
documents. -/
def setQueueStatusById (entries : List QueueEntry) (entryId : Nat) (ns : QStatus) :
    List QueueEntry :=
  entries.map (fun e => if e.id == entryId then { e with status := ns } else e)

/-- The compaction `Queue.updateMany` run on transition to
completed (queue.controller lines 126-131). -/
def compactQueue (entries : List QueueEntry) (doctorId : Nat) (k : Nat) :
    List QueueEntry :=
  entries.map (fun e =>
    if e.doctor == doctorId && e.status == QStatus.waiting && decide (k < e.position)
    then { e with position := e.position - 1 } else e)

/-- `updateQueueStatus` (queue.controller lines 88-138). -/
def updateQueueStatus (st : St) (actor : Actor) (entryId : Nat) (status : Option String) :
    St × Except ApiErr QueueEntry :=
  match status with
  | none => (st, Except.error (ApiErr.badRequest "Invalid or missing status. Must be in-progress or completed."))
  | some s =>
    if !(jsToLower s == "in-progress" || jsToLower s == "completed") then
      (st, Except.error (ApiErr.badRequest "Invalid or missing status. Must be in-progress or completed."))
    else
      match findQueueEntryById st entryId with
      | none => (st, Except.error (ApiErr.notFound "Queue entry not found."))
      | some qe =>
        if !qAuthorized st actor qe then
          (st, Except.error (ApiErr.forbidden "Unauthorized to update this queue status."))
        else
          let newStatus := jsToLower s
          if newStatus == "in-progress" && !(qe.status == QStatus.waiting) then
            (st, Except.error (ApiErr.badRequest "Cannot start consultation on a patient who is not waiting."))
          else
            let entries1 := setQueueStatusById st.entries entryId (qStatusOfValidated newStatus)
            let entries2 :=
              if newStatus == "completed" then compactQueue entries1 qe.doctor qe.position
              else entries1
            ({ st with entries := entries2 },
             Except.ok { qe with status := qStatusOfValidated newStatus })

/-- `getMyQueueStatus` (queue.controller lines 166-192): the single
non-completed entry `findOne` returns for the caller's patient profile,
`none` being the "not in a queue" sentinel. -/
def getMyQueueStatus (st : St) (userId : Nat) : Except ApiErr (Option QueueEntry) :=
  match findPatientByUser st userId with
  | none => Except.error (ApiErr.notFound "Patient profile not found.")
  | some pat =>
    Except.ok (st.entries.find? (fun e => e.patient == pat.id && isActiveQ e.status))

/-- The booking conflict filter (appointment controller lines 49-54):
same doctor, same slot date, same slot startTime, status pending or
confirmed.  `endTime` is not part of the filter. -/
def slotConflict (doctorId : Nat) (date : Nat) (startTime : String) (a : Appointment) : Bool :=
  a.doctor == doctorId && a.slot.date == date && a.slot.startTime == startTime &&
    (a.status == AStatus.pending || a.status == AStatus.confirmed)

/-- `bookAppointment` (appointment controller lines 30-76). -/
def bookAppointment (st : St) (userId : Nat) (doctorId : Option Nat)
    (date : Option Nat) (startTime : Option String) (endTime : Option String) :
    St × Except ApiErr Appointment :=
  match doctorId, date, startTime, endTime with
  | some did, some d, some sT, some eT =>
    (match findPatientByUser st userId with
     | none => (st, Except.error (ApiErr.notFound "Patient profile not found. Complete your profile first."))
     | some pat =>
       match findDoctorById st did with
       | none => (st, Except.error (ApiErr.notFound "Doctor profile not found."))
       | some _ =>
         match st.appointments.find? (slotConflict did d sT) with
         | some _ => (st, Except.error ApiErr.conflictSlot)
         | none =>
           let appt : Appointment :=
             { id := st.nextApptId, doctor := did, patient := pat.id,
               slot := { date := d, startTime := sT, endTime := eT },
               status := AStatus.pending }
           ({ st with appointments := st.appointments ++ [appt],
                      nextApptId := st.nextApptId + 1 },
            Except.ok appt))
  | _, _, _, _ =>
    (st, Except.error (ApiErr.badRequest "Doctor ID, date, start time, and end time are required."))

/-- The appointment authorization of `updateAppointmentStatus` (lines
132-138): admin always; a doctor only when the appointment's doctor is
the doctor profile owned by the caller. -/
def apptAuthorized (st : St) (actor : Actor) (a : Appointment) : Bool :=
  actor.role == "admin" ||
    (actor.role == "doctor" &&
      match findDoctorByUser st actor.userId with
      | some dp => a.doctor == dp.id
      | none => false)

/-- The validated appointment status string mapped into `AStatus`
(already lower-cased, one of "confirmed" / "cancelled" / "completed"). -/
def aStatusOfValidated (s : String) : AStatus :=
  if s == "confirmed" then AStatus.confirmed
  else if s == "cancelled" then AStatus.cancelled
  else AStatus.completed

/-- The status write `Appointment.findByIdAndUpdate` applied to the
matching documents. -/
def setApptStatusById (appts : List Appointment) (apptId : Nat) (ns : AStatus) :
    List Appointment :=
  appts.map (fun a => if a.id == apptId then { a with status := ns } else a)

/-- `updateAppointmentStatus` (appointment controller lines 117-162).
Note the source quirk kept verbatim: validation and the final `$set`
lower-case the incoming status, but the two transition guards compare
the RAW string (`status === "completed"`, `status === "confirmed"`). -/
def updateAppointmentStatus (st : St) (actor : Actor) (apptId : Nat)
    (status : Option String) : St × Except ApiErr Appointment :=
  match status with
  | none => (st, Except.error (ApiErr.badRequest "Invalid or missing status. Must be confirmed, cancelled, or completed."))
  | some s =>
    if !(["confirmed", "cancelled", "completed"].contains (jsToLower s)) then
      (st, Except.error (ApiErr.badRequest "Invalid or missing status. Must be confirmed, cancelled, or completed."))
    else
      match findApptById st apptId with
      | none => (st, Except.error (ApiErr.notFound "Appointment not found."))
      | some appt =>
        if !apptAuthorized st actor appt then
          (st, Except.error (ApiErr.forbidden "Unauthorized to change the status of this appointment."))
        else if s == "completed" && !(appt.status == AStatus.confirmed) then
          (st, Except.error (ApiErr.badRequest "Cannot complete an appointment that is not confirmed."))
        else if s == "confirmed" && !(appt.status == AStatus.pending) then
          (st, Except.error (ApiErr.badRequest "Can only confirm a pending appointment."))
        else
          let ns := aStatusOfValidated (jsToLower s)
          ({ st with appointments := setApptStatusById st.appointments apptId ns },
           Except.ok { appt with status := ns })

/-- The cancel authorization of `cancelAppointment` (lines 176-185):
admin, or the caller owns the appointment's patient profile, or the
caller owns the appointment's doctor profile (no role check on the two
ownership branches, exactly as in the source). -/
def cancelAuthorized (st : St) (actor : Actor) (a : Appointment) : Bool :=
  actor.role == "admin" ||
    (match findPatientByUser st actor.userId with
     | some pp => a.patient == pp.id
     | none => false) ||
    (match findDoctorByUser st actor.userId with
     | some dp => a.doctor == dp.id
     | none => false)

/-- `cancelAppointment` (appointment controller lines 165-203).
Authorization is checked BEFORE the already-terminal guard, exactly as
in the source. -/
def cancelAppointment (st : St) (actor : Actor) (apptId : Nat) :
    St × Except ApiErr Appointment :=
  match findApptById st apptId with
  | none => (st, Except.error (ApiErr.notFound "Appointment not found."))
  | some appt =>
    if !cancelAuthorized st actor appt then
      (st, Except.error (ApiErr.forbidden "Unauthorized to cancel this appointment."))
    else if appt.status == AStatus.completed || appt.status == AStatus.cancelled then
      (st, Except.error (ApiErr.cancelGuard appt.status))
    else
      ({ st with appointments := setApptStatusById st.appointments apptId AStatus.cancelled },
       Except.ok { appt with status := AStatus.cancelled })

/-- A queue operation of the kind quantified over by the position
invariant: a `joinQueue` request or an `updateQueueStatus` request. -/
inductive QOp where
  | join (userId : Nat) (doctorId : Nat) (now : Nat)
  | update (actor : Actor) (entryId : Nat) (status : String)
deriving DecidableEq

/-- The state reached by one queue operation (a thrown error leaves the
state untouched). -/
def applyQOp (st : St) (op : QOp) : St :=
  match op with
  | QOp.join u d now => (joinQueue st u (some d) now).1
  | QOp.update a e s => (updateQueueStatus st a e (some s)).1

/-- The state reached by a sequence of queue operations. -/
def runQOps (st : St) (ops : List QOp) : St :=
  ops.foldl applyQOp st

/-- An update operation is benign when it asks for `completed` and its
target entry (if it exists) is currently `waiting`; joins are always
benign.  This is the restriction the amended invariant claim needs:
`in-progress` transitions and re-completions of non-waiting entries are
exactly the operations that break position contiguity. -/
def goodQOp (st : St) (op : QOp) : Bool :=
  match op with
  | QOp.join _ _ _ => true
  | QOp.update _ e s =>
    jsToLower s == "completed" &&
      (match findQueueEntryById st e with
       | some qe => qe.status == QStatus.waiting
       | none => true)

/-- Every operation of the sequence is benign in the state it runs in. -/
def goodQOps (st : St) : List QOp → Bool
  | [] => true
  | op :: rest => goodQOp st op && goodQOps (applyQOp st op) rest

/-- The doctor's `waiting` entries. -/
def waitingFor (st : St) (d : Nat) : List QueueEntry :=
  st.entries.filter (fun e => e.doctor == d && e.status == QStatus.waiting)

/-- The positions of the doctor's `waiting` entries. -/
def waitingPositions (st : St) (d : Nat) : List Nat :=
  (waitingFor st d).map (fun e => e.position)

/-- The spec's queue invariant for one doctor: the waiting positions are
exactly the integers 1 through N (as a multiset, hence no duplicates and
no gaps) where
`N` is the number of waiting entries. -/
def QInv (st : St) (d : Nat) : Prop :=
  (waitingPositions st d).Perm (List.range' 1 (waitingFor st d).length)

instance decQInv (st : St) (d : Nat) : Decidable (QInv st d) :=
  inferInstanceAs (Decidable (List.Perm _ _))

/-- Well-formedness maintained by the queue operations: entry ids are
distinct and below the fresh-id counter (MongoDB `_id` uniqueness). -/
def StWF (st : St) : Prop :=
  (st.entries.map (fun e => e.id)).Nodup ∧
    ∀ e ∈ st.entries, e.id < st.nextQueueId

/-- The rewrite a successful completion applies to every document: the
target gets status `completed`; any other document of the same doctor
that is `waiting` strictly behind position `k` moves up one place; all
remaining documents are untouched. -/
def completeRewrite (entryId : Nat) (qdoc k : Nat) (e : QueueEntry) : QueueEntry :=
  if e.id == entryId then { e with status := QStatus.completed }
  else if e.doctor == qdoc && e.status == QStatus.waiting && decide (k < e.position)
  then { e with position := e.position - 1 } else e

def joinEntry (st : St) (did : Nat) (pat : PatientProfile) (now : Nat) : QueueEntry :=
  { id := st.nextQueueId, doctor := did, patient := pat.id,
    position := maxWaitingPosition st did + 1,
    estimatedTime := calculateEstimatedTime now (maxWaitingPosition st did + 1),
    status := QStatus.waiting }

def newAppointment (st : St) (did : Nat) (pat : PatientProfile) (d : Nat)
    (sT eT : String) : Appointment :=
  ⟨st.nextApptId, did, pat.id, ⟨d, sT, eT⟩, AStatus.pending⟩

def stQ0 : St := ⟨[⟨1, 1⟩, ⟨2, 2⟩], [⟨1, 10⟩], [], [], 1, 1⟩

def doctorActor : Actor := ⟨10, "doctor"⟩

def opsBad : List QOp :=
  [QOp.join 1 1 0, QOp.join 2 1 0, QOp.update doctorActor 1 "in-progress"]

def opsGood : List QOp :=
  [QOp.join 1 1 0, QOp.join 2 1 0, QOp.update doctorActor 1 "completed", QOp.join 1 1 30]

def qeW1 : QueueEntry := ⟨1, 1, 1, 1, 0, QStatus.waiting⟩

def qeW2 : QueueEntry := ⟨2, 1, 2, 2, 15, QStatus.waiting⟩

def qeW3 : QueueEntry := ⟨3, 2, 3, 1, 0, QStatus.waiting⟩

def stW2 : St := ⟨[], [⟨1, 10⟩, ⟨2, 20⟩], [qeW1, qeW2, qeW3], [], 4, 1⟩

def qeC1 : QueueEntry := ⟨1, 1, 1, 1, 0, QStatus.completed⟩

def qeC2 : QueueEntry := ⟨2, 1, 2, 2, 15, QStatus.waiting⟩

def stW9 : St := ⟨[], [⟨1, 10⟩], [qeC1, qeC2], [], 3, 1⟩

def patA : PatientProfile := ⟨1, 1⟩

def apptPend : Appointment := ⟨1, 1, 1, ⟨0, "09:00", "09:30"⟩, AStatus.pending⟩

def apptComp : Appointment := ⟨1, 1, 1, ⟨0, "09:00", "09:30"⟩, AStatus.completed⟩

def apptCanc : Appointment := ⟨1, 1, 1, ⟨0, "10:00", "10:30"⟩, AStatus.cancelled⟩

def adminActor : Actor := ⟨99, "admin"⟩

def strangerActor : Actor := ⟨50, "patient"⟩

def stA3 : St := ⟨[patA], [⟨1, 10⟩], [], [apptPend], 1, 2⟩

def stA4 : St := ⟨[patA], [⟨1, 10⟩], [], [apptComp], 1, 2⟩

def stA4c : St := ⟨[patA], [⟨1, 10⟩], [], [apptCanc], 1, 2⟩

def qe5 : QueueEntry := ⟨1, 1, 1, 1, 0, QStatus.waiting⟩

def stW5 : St := ⟨[patA], [⟨1, 10⟩], [qe5], [], 2, 1⟩

def stW10 : St := ⟨[patA], [⟨1, 10⟩, ⟨2, 20⟩], [qe5], [], 2, 1⟩

theorem foldr_max_range (n b : Nat) : (List.range' 1 n).foldr max b = max n b := by
  induction n generalizing b with
  | zero => simp
  | succ n ih =>
    rw [List.range'_1_concat, List.foldr_append]
    simp only [List.foldr]
    rw [ih]
    omega

theorem maxWaitingPosition_eq_foldr (st : St) (d : Nat) :
    maxWaitingPosition st d = (waitingPositions st d).foldr max 0 := by
  rw [waitingPositions, waitingFor, maxWaitingPosition, List.foldr_map]

theorem maxWaitingPosition_of_inv (st : St) (d : Nat) (h : QInv st d) :
    maxWaitingPosition st d = (waitingFor st d).length := by
  rw [maxWaitingPosition_eq_foldr]
  rw [h.foldr_eq' (by intro x _ y _ z; omega) 0]
  rw [foldr_max_range]
  omega

theorem joinQueue_success (st : St) (u did now : Nat) (pat : PatientProfile)
    (hpat : findPatientByUser st u = some pat)
    (hdoc : (findDoctorById st did).isSome = true)
    (hnone : st.entries.find? (activeEntryFor did pat.id) = none) :
    joinQueue st u (some did) now =
      ({ st with entries := st.entries ++ [joinEntry st did pat now],
                 nextQueueId := st.nextQueueId + 1 },
       Except.ok (joinEntry st did pat now)) := by
  obtain ⟨dp, hdp⟩ := Option.isSome_iff_exists.mp hdoc
  unfold joinQueue
  simp only [hpat, hdp, hnone]
  rfl

theorem waitingFor_append (st : St) (e : QueueEntry) (d : Nat)
    (h : e.doctor = d) (hw : e.status = QStatus.waiting) :
    List.filter (fun x => x.doctor == d && x.status == QStatus.waiting)
      (st.entries ++ [e]) = waitingFor st d ++ [e] := by
  rw [List.filter_append, waitingFor]
  congr 1
  simp [h, hw]

theorem QInv_join (st : St) (u did now d : Nat) (hinv : QInv st d) :
    QInv (joinQueue st u (some did) now).1 d := by
  cases hpat : findPatientByUser st u with
  | none => unfold joinQueue; simp only [hpat]; exact hinv
  | some pat =>
    cases hdoc : findDoctorById st did with
    | none => unfold joinQueue; simp only [hpat, hdoc]; exact hinv
    | some dp =>
      cases hex : st.entries.find? (activeEntryFor did pat.id) with
      | some e => unfold joinQueue; simp only [hpat, hdoc, hex]; exact hinv
      | none =>
        rw [joinQueue_success st u did now pat hpat (by rw [hdoc]; rfl) hex]
        have hinv' := hinv
        simp only [QInv, waitingPositions, waitingFor] at hinv' ⊢
        rw [List.filter_append]
        by_cases hd : did = d
        · subst hd
          have he : List.filter (fun x => x.doctor == did && x.status == QStatus.waiting)
              [joinEntry st did pat now] = [joinEntry st did pat now] := by
            simp [joinEntry]
          rw [he, List.map_append, List.length_append]
          simp only [List.map_cons, List.map_nil, List.length_cons, List.length_nil]
          have hpos : (joinEntry st did pat now).position =
              (List.filter (fun x => x.doctor == did && x.status == QStatus.waiting)
                st.entries).length + 1 := by
            have := maxWaitingPosition_of_inv st did hinv
            simp only [waitingFor] at this
            simp [joinEntry, this]
          rw [hpos, List.range'_1_concat]
          have harith : 1 + (List.filter (fun x => x.doctor == did && x.status == QStatus.waiting)
              st.entries).length =
              (List.filter (fun x => x.doctor == did && x.status == QStatus.waiting)
                st.entries).length + 1 := Nat.add_comm 1 _
          rw [harith]
          exact hinv'.append_right _
        · have he : List.filter (fun x => x.doctor == d && x.status == QStatus.waiting)
              [joinEntry st did pat now] = [] := by
            simp [joinEntry, hd]
          rw [he, List.append_nil]
          exact hinv'

theorem compact_set_eq_map (l : List QueueEntry) (entryId qdoc k : Nat) :
    compactQueue (setQueueStatusById l entryId QStatus.completed) qdoc k =
      l.map (completeRewrite entryId qdoc k) := by
  unfold compactQueue setQueueStatusById
  rw [List.map_map]
  apply List.map_congr_left
  intro e _
  unfold completeRewrite
  by_cases h : e.id = entryId
  · simp [h]
  · simp [h]

theorem updateCompleted_spec (st : St) (actor : Actor) (entryId : Nat) (s : String)
    (qe : QueueEntry) (hs : jsToLower s = "completed")
    (hfind : findQueueEntryById st entryId = some qe)
    (hauth : qAuthorized st actor qe = true) :
    updateQueueStatus st actor entryId (some s) =
      ({ st with entries := st.entries.map (completeRewrite entryId qe.doctor qe.position) },
       Except.ok { qe with status := QStatus.completed }) := by
  unfold updateQueueStatus
  simp only [hs, hfind, hauth]
  simp only [beq_self_eq_true, Bool.or_true, Bool.not_true, Bool.false_eq_true, if_false,
    Bool.not_false, if_true]
  have hc : ("completed" == "in-progress") = false := by decide
  rw [hc, Bool.false_and]
  simp only [Bool.false_eq_true, if_false]
  have hv : qStatusOfValidated "completed" = QStatus.completed := rfl
  rw [hv, compact_set_eq_map]

theorem completeRewrite_doctor (entryId qdoc k : Nat) (e : QueueEntry) :
    (completeRewrite entryId qdoc k e).doctor = e.doctor := by
  unfold completeRewrite
  by_cases h1 : e.id = entryId
  · simp [h1]
  · by_cases h2 : (e.doctor == qdoc && e.status == QStatus.waiting &&
        decide (k < e.position)) = true
    · simp [h1, h2]
    · simp [h1, h2]

theorem completeRewrite_status_ne (entryId qdoc k : Nat) (e : QueueEntry)
    (h : ¬ e.id = entryId) :
    (completeRewrite entryId qdoc k e).status = e.status := by
  unfold completeRewrite
  by_cases h2 : (e.doctor == qdoc && e.status == QStatus.waiting &&
      decide (k < e.position)) = true
  · simp [h, h2]
  · simp [h, h2]

theorem completeRewrite_status_eq (entryId qdoc k : Nat) (e : QueueEntry)
    (h : e.id = entryId) :
    (completeRewrite entryId qdoc k e).status = QStatus.completed := by
  unfold completeRewrite
  simp [h]

theorem filter_waiting_map_complete (l : List QueueEntry) (entryId qdoc k d : Nat) :
    List.filter (fun e => e.doctor == d && e.status == QStatus.waiting)
        (l.map (completeRewrite entryId qdoc k)) =
      List.map (completeRewrite entryId qdoc k)
        (List.filter (fun e => (e.doctor == d && e.status == QStatus.waiting) &&
          !(e.id == entryId)) l) := by
  rw [List.filter_map]
  congr 1
  apply List.filter_congr
  intro e _
  by_cases h1 : e.id = entryId
  · simp [Function.comp, completeRewrite_status_eq entryId qdoc k e h1, h1]
  · simp [Function.comp, completeRewrite_status_ne entryId qdoc k e h1,
      completeRewrite_doctor, h1]

theorem map_pred_range' (j s : Nat) :
    (List.range' (s + 1) j).map (fun m => m - 1) = List.range' s j := by
  induction j generalizing s with
  | zero => rfl
  | succ j ih =>
    rw [List.range'_succ, List.range'_succ]
    simp only [List.map_cons]
    rw [show s + 1 + 1 = (s + 1) + 1 from rfl, ih (s + 1), Nat.add_sub_cancel]

theorem map_dec_erase_range (N k : Nat) (h1 : 1 ≤ k) (h2 : k ≤ N) :
    ((List.range' 1 N).erase k).map (fun m => if k < m then m - 1 else m) =
      List.range' 1 (N - 1) := by
  have e1 : List.range' 1 (k - 1) ++ List.range' k (N - k + 1) = List.range' 1 N := by
    have h := List.range'_append_1 1 (k - 1) (N - k + 1)
    rw [show 1 + (k - 1) = k by omega] at h
    rw [h]
    congr 1
    omega
  have e2 : List.range' k (N - k + 1) = k :: List.range' (k + 1) (N - k) := by
    rw [show N - k + 1 = (N - k) + 1 from rfl]
    exact List.range'_succ k (N - k) 1
  have hknot : k ∉ List.range' 1 (k - 1) := by
    intro hmem
    rw [List.mem_range'_1] at hmem
    omega
  rw [← e1, e2, List.erase_append_right _ hknot, List.erase_cons_head]
  rw [List.map_append]
  have eA : (List.range' 1 (k - 1)).map (fun m => if k < m then m - 1 else m) =
      List.range' 1 (k - 1) := by
    have : (List.range' 1 (k - 1)).map (fun m => if k < m then m - 1 else m) =
        (List.range' 1 (k - 1)).map id := by
      apply List.map_congr_left
      intro m hm
      rw [List.mem_range'_1] at hm
      have : ¬ k < m := by omega
      simp [this]
    rw [this, List.map_id]
  have eB : (List.range' (k + 1) (N - k)).map (fun m => if k < m then m - 1 else m) =
      List.range' k (N - k) := by
    have : (List.range' (k + 1) (N - k)).map (fun m => if k < m then m - 1 else m) =
        (List.range' (k + 1) (N - k)).map (fun m => m - 1) := by
      apply List.map_congr_left
      intro m hm
      rw [List.mem_range'_1] at hm
      have : k < m := by omega
      simp [this]
    rw [this, map_pred_range']
  rw [eA, eB]
  have h := List.range'_append_1 1 (k - 1) (N - k)
  rw [show 1 + (k - 1) = k by omega] at h
  rw [h]
  congr 1
  omega

theorem entry_eq_of_id_eq (l : List QueueEntry)
    (hwf : (l.map (fun e => e.id)).Nodup)
    (e1 e2 : QueueEntry) (h1 : e1 ∈ l) (h2 : e2 ∈ l) (h : e1.id = e2.id) : e1 = e2 :=
  List.inj_on_of_nodup_map hwf h1 h2 h

theorem QInv_complete (st : St) (entryId : Nat) (qe : QueueEntry)
    (hwf : (st.entries.map (fun e => e.id)).Nodup)
    (hfind : findQueueEntryById st entryId = some qe)
    (hwait : qe.status = QStatus.waiting)
    (d : Nat) (hinv : QInv st d) :
    QInv { st with
      entries := st.entries.map (completeRewrite entryId qe.doctor qe.position) } d := by
  have hmem : qe ∈ st.entries := List.mem_of_find?_eq_some hfind
  have hid : qe.id = entryId := by
    have := List.find?_some hfind
    rwa [beq_iff_eq] at this
  simp only [QInv, waitingPositions, waitingFor] at hinv ⊢
  rw [filter_waiting_map_complete]
  by_cases hd : d = qe.doctor
  case neg =>
    -- frame: the doctor d is unaffected
    have hfe : List.filter (fun e => (e.doctor == d && e.status == QStatus.waiting) &&
        !(e.id == entryId)) st.entries =
        List.filter (fun e => e.doctor == d && e.status == QStatus.waiting) st.entries := by
      apply List.filter_congr
      intro e he
      by_cases h1 : e.id = entryId
      · have : e = qe := entry_eq_of_id_eq st.entries hwf e qe he hmem (h1.trans hid.symm)
        subst this
        have : ¬ e.doctor = d := fun hc => hd (hc ▸ rfl)
        simp [this]
      · simp [h1]
    rw [hfe]
    have hmapid : List.map (completeRewrite entryId qe.doctor qe.position)
        (List.filter (fun e => e.doctor == d && e.status == QStatus.waiting) st.entries) =
        List.filter (fun e => e.doctor == d && e.status == QStatus.waiting) st.entries := by
      have : List.map (completeRewrite entryId qe.doctor qe.position)
          (List.filter (fun e => e.doctor == d && e.status == QStatus.waiting) st.entries) =
          List.map id
          (List.filter (fun e => e.doctor == d && e.status == QStatus.waiting) st.entries) := by
        apply List.map_congr_left
        intro e he
        have heL := List.mem_of_mem_filter he
        have hep := List.of_mem_filter he
        rw [Bool.and_eq_true, beq_iff_eq] at hep
        have hne : ¬ e.id = entryId := by
          intro hc
          have : e = qe := entry_eq_of_id_eq st.entries hwf e qe heL hmem (hc.trans hid.symm)
          exact hd (this ▸ hep.1 ▸ rfl)
        have hdo : ¬ e.doctor = qe.doctor := by
          intro hc
          exact hd (hep.1 ▸ hc ▸ rfl)
        unfold completeRewrite
        simp [hne, hdo]
      rw [this, List.map_id]
    rw [hmapid]
    exact hinv
  case pos =>
    subst hd
    have hlnodup : st.entries.Nodup := List.Nodup.of_map _ hwf
    have hqeW : qe ∈ List.filter
        (fun e => e.doctor == qe.doctor && e.status == QStatus.waiting) st.entries := by
      rw [List.mem_filter]
      exact ⟨hmem, by simp [hwait]⟩
    have hWnodup : (List.filter
        (fun e => e.doctor == qe.doctor && e.status == QStatus.waiting) st.entries).Nodup :=
      List.Nodup.filter _ hlnodup
    have hA : List.filter (fun e => (e.doctor == qe.doctor && e.status == QStatus.waiting) &&
        !(e.id == entryId)) st.entries =
        List.filter (fun e => !(e.id == entryId))
          (List.filter (fun e => e.doctor == qe.doctor && e.status == QStatus.waiting)
            st.entries) := by
      rw [List.filter_filter]
      apply List.filter_congr
      intro e _
      exact Bool.and_comm _ _
    have hE : (List.filter (fun e => e.doctor == qe.doctor && e.status == QStatus.waiting)
        st.entries).erase qe =
        List.filter (fun e => !(e.id == entryId))
          (List.filter (fun e => e.doctor == qe.doctor && e.status == QStatus.waiting)
            st.entries) := by
      rw [List.Nodup.erase_eq_filter hWnodup]
      apply List.filter_congr
      intro e heW
      show (e != qe) = !(e.id == entryId)
      have heL := List.mem_of_mem_filter heW
      by_cases hee : e = qe
      · subst hee
        simp [hid]
      · have h1 : (e == qe) = false := by
          rw [beq_eq_false_iff_ne]
          exact hee
        have h2 : (e.id == entryId) = false := by
          rw [beq_eq_false_iff_ne]
          intro hc
          exact hee (entry_eq_of_id_eq st.entries hwf e qe heL hmem (hc.trans hid.symm))
        rw [bne, h1, h2]
    rw [hA, ← hE]
    set W : List QueueEntry := List.filter
      (fun e => e.doctor == qe.doctor && e.status == QStatus.waiting) st.entries with hWdef
    have hB : List.map (fun e => e.position)
        (List.map (completeRewrite entryId qe.doctor qe.position) (W.erase qe)) =
        List.map (fun m => if qe.position < m then m - 1 else m)
          (List.map (fun e => e.position) (W.erase qe)) := by
      rw [List.map_map, List.map_map]
      apply List.map_congr_left
      intro e he
      have heW' : e ∈ List.filter (fun e => !(e.id == entryId)) W := by
        rw [← hE]
        exact he
      have hne : ¬ e.id = entryId := by
        have := List.of_mem_filter heW'
        rw [Bool.not_eq_eq_eq_not, Bool.not_true, beq_eq_false_iff_ne] at this
        exact this
      have heW : e ∈ W := List.mem_of_mem_filter heW'
      have hep := List.of_mem_filter heW
      rw [Bool.and_eq_true, beq_iff_eq, beq_iff_eq] at hep
      show (completeRewrite entryId qe.doctor qe.position e).position =
        if qe.position < e.position then e.position - 1 else e.position
      unfold completeRewrite
      by_cases hlt : qe.position < e.position
      · simp [hne, hep.1, hep.2, hlt]
      · simp [hne, hep.1, hep.2, hlt]
    have hperm1 : (List.map (fun e => e.position) W).Perm
        (qe.position :: List.map (fun e => e.position) (W.erase qe)) :=
      (List.perm_cons_erase hqeW).map (fun e => e.position)
    have hperm2 : (qe.position :: List.map (fun e => e.position) (W.erase qe)).Perm
        (List.range' 1 W.length) := hperm1.symm.trans hinv
    have hk1 : qe.position ∈ List.range' 1 W.length :=
      hperm2.subset (List.mem_cons_self _ _)
    rw [List.mem_range'_1] at hk1
    have hperm3 : (List.map (fun e => e.position) (W.erase qe)).Perm
        ((List.range' 1 W.length).erase qe.position) :=
      (List.cons_perm_iff_perm_erase.mp hperm2).2
    have hperm4 := hperm3.map (fun m => if qe.position < m then m - 1 else m)
    rw [map_dec_erase_range W.length qe.position hk1.1 (by omega)] at hperm4
    rw [hB]
    have hlen : (List.map (completeRewrite entryId qe.doctor qe.position)
        (W.erase qe)).length = W.length - 1 := by
      rw [List.length_map]
      have hq := hperm4.length_eq
      rw [List.length_map, List.length_map, List.length_range'] at hq
      exact hq
    rw [hlen]
    exact hperm4

theorem completeRewrite_id (entryId qdoc k : Nat) (e : QueueEntry) :
    (completeRewrite entryId qdoc k e).id = e.id := by
  unfold completeRewrite
  by_cases h1 : e.id = entryId
  · simp [h1]
  · by_cases h2 : (e.doctor == qdoc && e.status == QStatus.waiting &&
        decide (k < e.position)) = true
    · simp [h1, h2]
    · simp [h1, h2]

theorem updateQueueStatus_err_state (st : St) (actor : Actor) (entryId : Nat) (s : String)
    (hs : jsToLower s = "completed")
    (herr : findQueueEntryById st entryId = none ∨
      ∃ qe, findQueueEntryById st entryId = some qe ∧ qAuthorized st actor qe = false) :
    (updateQueueStatus st actor entryId (some s)).1 = st := by
  unfold updateQueueStatus
  simp only [hs]
  have hv : (!(("completed" == "in-progress") || ("completed" == "completed"))) = false := by
    decide
  rw [hv]
  simp only [Bool.false_eq_true, if_false]
  rcases herr with hnone | ⟨qe, hfind, hauth⟩
  · rw [hnone]
  · simp only [hfind, hauth, Bool.not_false, if_true]

theorem step_preserves (st : St) (op : QOp)
    (hwf1 : (st.entries.map (fun e => e.id)).Nodup)
    (hwf2 : ∀ e ∈ st.entries, e.id < st.nextQueueId)
    (hgood : goodQOp st op = true)
    (hinv : ∀ d, QInv st d) :
    ((applyQOp st op).entries.map (fun e => e.id)).Nodup ∧
    (∀ e ∈ (applyQOp st op).entries, e.id < (applyQOp st op).nextQueueId) ∧
    (∀ d, QInv (applyQOp st op) d) := by
  cases op with
  | join u did now =>
    cases hpat : findPatientByUser st u with
    | none =>
      have hstate : applyQOp st (QOp.join u did now) = st := by
        show (joinQueue st u (some did) now).1 = st
        unfold joinQueue
        simp only [hpat]
      rw [hstate]
      exact ⟨hwf1, hwf2, hinv⟩
    | some pat =>
      cases hdoc : findDoctorById st did with
      | none =>
        have hstate : applyQOp st (QOp.join u did now) = st := by
          show (joinQueue st u (some did) now).1 = st
          unfold joinQueue
          simp only [hpat, hdoc]
        rw [hstate]
        exact ⟨hwf1, hwf2, hinv⟩
      | some dp =>
        cases hex : st.entries.find? (activeEntryFor did pat.id) with
        | some e =>
          have hstate : applyQOp st (QOp.join u did now) = st := by
            show (joinQueue st u (some did) now).1 = st
            unfold joinQueue
            simp only [hpat, hdoc, hex]
          rw [hstate]
          exact ⟨hwf1, hwf2, hinv⟩
        | none =>
          have hstate : applyQOp st (QOp.join u did now) =
              { st with entries := st.entries ++ [joinEntry st did pat now],
                        nextQueueId := st.nextQueueId + 1 } := by
            show (joinQueue st u (some did) now).1 = _
            rw [joinQueue_success st u did now pat hpat (by rw [hdoc]; rfl) hex]
          rw [hstate]
          refine ⟨?_, ?_, ?_⟩
          · simp only [List.map_append, List.map_cons, List.map_nil]
            rw [List.nodup_append]
            refine ⟨hwf1, List.nodup_singleton _, ?_⟩
            intro a ha hb
            simp only [joinEntry, List.mem_singleton] at hb
            rw [List.mem_map] at ha
            obtain ⟨e, he, rfl⟩ := ha
            have := hwf2 e he
            omega
          · intro e he
            simp only [List.mem_append, List.mem_singleton] at he
            rcases he with he | rfl
            · have := hwf2 e he
              show e.id < st.nextQueueId + 1
              omega
            · simp [joinEntry]
          · intro d
            have := QInv_join st u did now d (hinv d)
            rw [joinQueue_success st u did now pat hpat (by rw [hdoc]; rfl) hex] at this
            exact this
  | update a e s =>
    have hgs : jsToLower s = "completed" := by
      unfold goodQOp at hgood
      rw [Bool.and_eq_true, beq_iff_eq] at hgood
      exact hgood.1
    cases hfind : findQueueEntryById st e with
    | none =>
      have hstate : applyQOp st (QOp.update a e s) = st :=
        updateQueueStatus_err_state st a e s hgs (Or.inl hfind)
      rw [hstate]
      exact ⟨hwf1, hwf2, hinv⟩
    | some qe =>
      have hwait : qe.status = QStatus.waiting := by
        unfold goodQOp at hgood
        rw [Bool.and_eq_true] at hgood
        have hg := hgood.2
        rw [hfind] at hg
        rwa [beq_iff_eq] at hg
      cases hauth : qAuthorized st a qe with
      | false =>
        have hstate : applyQOp st (QOp.update a e s) = st :=
          updateQueueStatus_err_state st a e s hgs (Or.inr ⟨qe, hfind, hauth⟩)
        rw [hstate]
        exact ⟨hwf1, hwf2, hinv⟩
      | true =>
        have hstate : applyQOp st (QOp.update a e s) =
            { st with entries :=
                st.entries.map (completeRewrite e qe.doctor qe.position) } := by
          show (updateQueueStatus st a e (some s)).1 = _
          rw [updateCompleted_spec st a e s qe hgs hfind hauth]
        rw [hstate]
        refine ⟨?_, ?_, ?_⟩
        · simp only [List.map_map]
          have hmi : List.map ((fun x => x.id) ∘ completeRewrite e qe.doctor qe.position)
              st.entries = List.map (fun x => x.id) st.entries := by
            apply List.map_congr_left
            intro x _
            exact completeRewrite_id e qe.doctor qe.position x
          rw [hmi]
          exact hwf1
        · intro x hx
          simp only [List.mem_map] at hx
          obtain ⟨y, hy, rfl⟩ := hx
          rw [completeRewrite_id]
          exact hwf2 y hy
        · intro d
          exact QInv_complete st e qe hwf1 hfind hwait d (hinv d)

theorem QInv_empty (st : St) (h : st.entries = []) (d : Nat) : QInv st d := by
  simp [QInv, waitingPositions, waitingFor, h]

theorem runQOps_preserves (st : St) (ops : List QOp)
    (hwf1 : (st.entries.map (fun e => e.id)).Nodup)
    (hwf2 : ∀ e ∈ st.entries, e.id < st.nextQueueId)
    (hgood : goodQOps st ops = true)
    (hinv : ∀ d, QInv st d) :
    ∀ d, QInv (runQOps st ops) d := by
  induction ops generalizing st with
  | nil => exact hinv
  | cons op rest ih =>
    rw [goodQOps, Bool.and_eq_true] at hgood
    obtain ⟨h1, h2, h3⟩ := step_preserves st op hwf1 hwf2 hgood.1 hinv
    exact ih (applyQOp st op) h1 h2 hgood.2 h3

/-- Claim C1 (amended): for every doctor, after any sequence of
`joinQueue` and `updateQueueStatus` operations starting from an empty
queue IN WHICH every update requests status completed for an entry that
is waiting when the update runs, the positions of that doctor's waiting
entries form exactly the multiset 1..N, N being the number of waiting
entries.  The restriction is forced by
`inprogress_transition_breaks_contiguity`: the claim as frozen, over all
operation sequences, is false. -/
theorem join_and_complete_keeps_positions_contiguous (st : St) (ops : List QOp) (d : Nat)
    (hempty : st.entries = []) (hgood : goodQOps st ops = true) :
    QInv (runQOps st ops) d := by
  have h1 : (st.entries.map (fun e => e.id)).Nodup := by
    rw [hempty]
    exact List.nodup_nil
  have h2 : ∀ e ∈ st.entries, e.id < st.nextQueueId := by
    rw [hempty]
    intro e he
    cases he
  have h3 : ∀ d', QInv st d' := fun d' => QInv_empty st hempty d'
  exact runQOps_preserves st ops h1 h2 hgood h3 d

/-- Claim C1 counterexample: starting from the empty queue, two joins to
doctor 1 followed by an authorized `updateQueueStatus` to in-progress on
the first entry leave the waiting positions of doctor 1 at the single
position 2, not the set containing 1 alone, refuting the claim as
stated (an in-progress transition removes a waiting entry without
compaction). -/
theorem inprogress_transition_breaks_contiguity : stQ0.entries = [] ∧ ¬ QInv (runQOps stQ0 opsBad) 1 :=
  ⟨rfl, by decide⟩

/-- Witness for claim C1: a concrete trace of two joins, one completion
and another join, starting from the empty queue, satisfies the theorem's
hypotheses and its conclusion for doctor 1. -/
theorem join_and_complete_contiguity_witness :
    stQ0.entries = [] ∧ goodQOps stQ0 opsGood = true ∧ QInv (runQOps stQ0 opsGood) 1 :=
  ⟨rfl, by decide, join_and_complete_keeps_positions_contiguous stQ0 opsGood 1 rfl (by decide)⟩

/-- Claim C2: when an authorized caller completes the entry at position
k, the resulting state rewrites every document by `completeRewrite`: any
other waiting entry of the same doctor with position strictly greater
than k is decremented by exactly one, and every entry of another doctor,
as well as every other same-doctor entry with position at most k, is
left unchanged. -/
theorem complete_compacts_same_doctor_frames_others (st : St) (actor : Actor)
    (entryId : Nat) (s : String) (qe : QueueEntry)
    (hs : jsToLower s = "completed")
    (hfind : findQueueEntryById st entryId = some qe)
    (hauth : qAuthorized st actor qe = true) :
    ∃ st', updateQueueStatus st actor entryId (some s) =
        (st', Except.ok { qe with status := QStatus.completed }) ∧
      st'.entries = st.entries.map (completeRewrite entryId qe.doctor qe.position) ∧
      (∀ e ∈ st.entries, ¬ e.id = entryId →
        (e.doctor = qe.doctor → e.status = QStatus.waiting → qe.position < e.position →
          { e with position := e.position - 1 } ∈ st'.entries) ∧
        ((¬ e.doctor = qe.doctor ∨ e.position ≤ qe.position) → e ∈ st'.entries)) := by
  refine ⟨_, updateCompleted_spec st actor entryId s qe hs hfind hauth, rfl, ?_⟩
  intro e he hne
  constructor
  · intro hdoc hwait hlt
    have : completeRewrite entryId qe.doctor qe.position e =
        { e with position := e.position - 1 } := by
      unfold completeRewrite
      simp [hne, hdoc, hwait, hlt]
    rw [← this]
    exact List.mem_map_of_mem _ he
  · intro hcase
    have : completeRewrite entryId qe.doctor qe.position e = e := by
      unfold completeRewrite
      rcases hcase with hdoc | hle
      · simp [hne, hdoc]
      · have : ¬ qe.position < e.position := by omega
        simp [hne, this]
    rw [← this]
    exact List.mem_map_of_mem _ he

/-- Witness for claim C2: completing entry 1 of doctor 1 in a concrete
three-entry state. -/
theorem completion_compaction_witness :
    jsToLower "completed" = "completed" ∧
    findQueueEntryById stW2 1 = some qeW1 ∧
    qAuthorized stW2 doctorActor qeW1 = true ∧
    ∃ st', updateQueueStatus stW2 doctorActor 1 (some "completed") =
        (st', Except.ok { qeW1 with status := QStatus.completed }) ∧
      st'.entries = stW2.entries.map (completeRewrite 1 qeW1.doctor qeW1.position) ∧
      (∀ e ∈ stW2.entries, ¬ e.id = 1 →
        (e.doctor = qeW1.doctor → e.status = QStatus.waiting → qeW1.position < e.position →
          { e with position := e.position - 1 } ∈ st'.entries) ∧
        ((¬ e.doctor = qeW1.doctor ∨ e.position ≤ qeW1.position) → e ∈ st'.entries)) :=
  ⟨rfl, rfl, rfl,
    complete_compacts_same_doctor_frames_others stW2 doctorActor 1 "completed" qeW1
      rfl rfl rfl⟩

/-- Claim C9: `updateQueueStatus` with status completed has no
prior-state guard, so an authorized call on an entry that is ALREADY
completed succeeds again and re-runs the compaction: every waiting entry
of the same doctor with position strictly greater than the entry's
position is decremented once more. -/
theorem recomplete_completed_entry_compacts_again (st : St) (actor : Actor)
    (entryId : Nat) (s : String) (qe : QueueEntry)
    (hwf : (st.entries.map (fun e => e.id)).Nodup)
    (hs : jsToLower s = "completed")
    (hfind : findQueueEntryById st entryId = some qe)
    (hcompleted : qe.status = QStatus.completed)
    (hauth : qAuthorized st actor qe = true) :
    ∃ st', updateQueueStatus st actor entryId (some s) =
        (st', Except.ok { qe with status := QStatus.completed }) ∧
      ∀ e ∈ st.entries, e.doctor = qe.doctor → e.status = QStatus.waiting →
        qe.position < e.position →
        { e with position := e.position - 1 } ∈ st'.entries := by
  refine ⟨_, updateCompleted_spec st actor entryId s qe hs hfind hauth, ?_⟩
  intro e he hdoc hwait hlt
  have hmem : qe ∈ st.entries := List.mem_of_find?_eq_some hfind
  have hid : qe.id = entryId := by
    have := List.find?_some hfind
    rwa [beq_iff_eq] at this
  have hne : ¬ e.id = entryId := by
    intro hc
    have : e = qe := entry_eq_of_id_eq st.entries hwf e qe he hmem (hc.trans hid.symm)
    rw [this, hcompleted] at hwait
    cases hwait
  have : completeRewrite entryId qe.doctor qe.position e =
      { e with position := e.position - 1 } := by
    unfold completeRewrite
    simp [hne, hdoc, hwait, hlt]
  rw [← this]
  exact List.mem_map_of_mem _ he

/-- Witness for claim C9: re-completing the already completed entry 1 in
a concrete state decrements the waiting entry behind it again. -/
theorem recompletion_compacts_witness :
    (stW9.entries.map (fun e => e.id)).Nodup ∧
    findQueueEntryById stW9 1 = some qeC1 ∧
    qeC1.status = QStatus.completed ∧
    qAuthorized stW9 doctorActor qeC1 = true ∧
    ∃ st', updateQueueStatus stW9 doctorActor 1 (some "completed") =
        (st', Except.ok { qeC1 with status := QStatus.completed }) ∧
      ∀ e ∈ stW9.entries, e.doctor = qeC1.doctor → e.status = QStatus.waiting →
        qeC1.position < e.position →
        { e with position := e.position - 1 } ∈ st'.entries :=
  ⟨by decide, rfl, rfl, rfl,
    recomplete_completed_entry_compacts_again stW9 doctorActor 1 "completed" qeC1
      (by decide) rfl rfl rfl rfl⟩

theorem foldr_max_ge (l : List Nat) (x : Nat) (hx : x ∈ l) : x ≤ l.foldr max 0 := by
  induction l with
  | nil => cases hx
  | cons a t ih =>
    rw [List.foldr_cons]
    rcases List.mem_cons.mp hx with rfl | h
    · omega
    · have := ih h
      omega

theorem foldr_max_mem (l : List Nat) (h : ¬ l.foldr max 0 = 0) : l.foldr max 0 ∈ l := by
  induction l with
  | nil => simp at h
  | cons a t ih =>
    rw [List.foldr_cons] at h ⊢
    by_cases hc : t.foldr max 0 ≤ a
    · have hm : max a (t.foldr max 0) = a := by omega
      rw [hm]
      exact List.mem_cons_self a t
    · have hm : max a (t.foldr max 0) = t.foldr max 0 := by omega
      rw [hm] at h ⊢
      exact List.mem_cons_of_mem a (ih h)

/-- Claim C5: when the caller's patient already holds a waiting or
in-progress entry for the doctor, `joinQueue` returns the Conflict error
carrying the existing entry's position (the 409 message interpolates
exactly this number) and the state component of the result is the
untouched input state: no entry is created and no position changes. -/
theorem duplicate_join_conflict (st : St) (u did now : Nat) (pat : PatientProfile)
    (hpat : findPatientByUser st u = some pat)
    (hdoc : (findDoctorById st did).isSome = true)
    (hex : ∃ e ∈ st.entries, e.doctor = did ∧ e.patient = pat.id ∧
      (e.status = QStatus.waiting ∨ e.status = QStatus.inProgress)) :
    ∃ ex ∈ st.entries, ex.doctor = did ∧ ex.patient = pat.id ∧
      (ex.status = QStatus.waiting ∨ ex.status = QStatus.inProgress) ∧
      joinQueue st u (some did) now = (st, Except.error (ApiErr.conflictJoin ex.position)) := by
  obtain ⟨dp, hdp⟩ := Option.isSome_iff_exists.mp hdoc
  obtain ⟨e0, he0, hd0, hp0, hs0⟩ := hex
  have hsome : (st.entries.find? (activeEntryFor did pat.id)).isSome := by
    rw [List.find?_isSome]
    refine ⟨e0, he0, ?_⟩
    unfold activeEntryFor isActiveQ
    rcases hs0 with h | h
    · simp [hd0, hp0, h]
    · simp [hd0, hp0, h]
  obtain ⟨ex, hfind⟩ := Option.isSome_iff_exists.mp hsome
  have hprop := List.find?_some hfind
  have hmem := List.mem_of_find?_eq_some hfind
  unfold activeEntryFor isActiveQ at hprop
  rw [Bool.and_eq_true, Bool.and_eq_true, Bool.or_eq_true,
    beq_iff_eq, beq_iff_eq, beq_iff_eq, beq_iff_eq] at hprop
  refine ⟨ex, hmem, hprop.1.1, hprop.1.2, hprop.2, ?_⟩
  unfold joinQueue
  simp only [hpat, hdp, hfind]

/-- Claim C7: a successful `joinQueue` creates a waiting entry whose
position is strictly greater than the position of every waiting entry of
the doctor and is either 1 (no waiting entry exists) or the successor of
the position of some waiting entry (the maximum), and whose
estimatedTime is the current time plus (position - 1) times 15
minutes. -/
theorem join_assigns_next_position (st : St) (u did now : Nat) (pat : PatientProfile)
    (hpat : findPatientByUser st u = some pat)
    (hdoc : (findDoctorById st did).isSome = true)
    (hnone : st.entries.find? (activeEntryFor did pat.id) = none) :
    ∃ st' entry, joinQueue st u (some did) now = (st', Except.ok entry) ∧
      entry.status = QStatus.waiting ∧
      entry.estimatedTime = now + (entry.position - 1) * 15 ∧
      (∀ e ∈ st.entries, e.doctor = did → e.status = QStatus.waiting →
        e.position < entry.position) ∧
      (entry.position = 1 ∨
        ∃ e ∈ st.entries, e.doctor = did ∧ e.status = QStatus.waiting ∧
          e.position + 1 = entry.position) := by
  refine ⟨_, _, joinQueue_success st u did now pat hpat hdoc hnone, rfl, ?_, ?_, ?_⟩
  · simp [joinEntry, calculateEstimatedTime]
  · intro e he hd hw
    have hmemW : e ∈ waitingFor st did := by
      rw [waitingFor, List.mem_filter]
      exact ⟨he, by simp [hd, hw]⟩
    have hmemP : e.position ∈ waitingPositions st did := by
      rw [waitingPositions]
      exact List.mem_map_of_mem _ hmemW
    have hle : e.position ≤ maxWaitingPosition st did := by
      rw [maxWaitingPosition_eq_foldr]
      exact foldr_max_ge _ _ hmemP
    show e.position < (joinEntry st did pat now).position
    simp only [joinEntry]
    omega
  · by_cases hM : maxWaitingPosition st did = 0
    · left
      show (joinEntry st did pat now).position = 1
      simp [joinEntry, hM]
    · right
      have hmem : maxWaitingPosition st did ∈ waitingPositions st did := by
        rw [maxWaitingPosition_eq_foldr] at hM ⊢
        exact foldr_max_mem _ hM
      rw [waitingPositions, List.mem_map] at hmem
      obtain ⟨e, heW, hpos⟩ := hmem
      rw [waitingFor, List.mem_filter, Bool.and_eq_true, beq_iff_eq, beq_iff_eq] at heW
      refine ⟨e, heW.1, heW.2.1, heW.2.2, ?_⟩
      show e.position + 1 = (joinEntry st did pat now).position
      simp only [joinEntry]
      omega

theorem cancelAppointment_spec (st : St) (actor : Actor) (aid : Nat) (appt : Appointment)
    (hfind : findApptById st aid = some appt) :
    (cancelAuthorized st actor appt = false →
      cancelAppointment st actor aid =
        (st, Except.error (ApiErr.forbidden "Unauthorized to cancel this appointment."))) ∧
    (cancelAuthorized st actor appt = true →
      ((appt.status = AStatus.completed ∨ appt.status = AStatus.cancelled) →
        cancelAppointment st actor aid = (st, Except.error (ApiErr.cancelGuard appt.status))) ∧
      ((appt.status = AStatus.pending ∨ appt.status = AStatus.confirmed) →
        cancelAppointment st actor aid =
          ({ st with appointments := setApptStatusById st.appointments aid AStatus.cancelled },
           Except.ok { appt with status := AStatus.cancelled }))) := by
  refine ⟨?_, ?_⟩
  · intro hauth
    unfold cancelAppointment
    simp only [hfind, hauth, Bool.not_false, if_true]
  · intro hauth
    refine ⟨?_, ?_⟩
    · intro hterm
      unfold cancelAppointment
      simp only [hfind, hauth, Bool.not_true, Bool.false_eq_true, if_false]
      rcases hterm with h | h
      · simp [h]
      · simp [h]
    · intro hlive
      unfold cancelAppointment
      simp only [hfind, hauth, Bool.not_true, Bool.false_eq_true, if_false]
      rcases hlive with h | h
      · simp [h]
      · simp [h]

theorem cancelAppointment_state_cases (st : St) (actor : Actor) (aid : Nat) :
    (cancelAppointment st actor aid).1 = st ∨
    ∃ appt, findApptById st aid = some appt ∧
      ¬ appt.status = AStatus.completed ∧ ¬ appt.status = AStatus.cancelled ∧
      (cancelAppointment st actor aid).1 =
        { st with appointments := setApptStatusById st.appointments aid AStatus.cancelled } := by
  cases hfind : findApptById st aid with
  | none =>
    left
    unfold cancelAppointment
    rw [hfind]
  | some appt =>
    cases hauth : cancelAuthorized st actor appt with
    | false =>
      left
      rw [(cancelAppointment_spec st actor aid appt hfind).1 hauth]
    | true =>
      by_cases hterm : appt.status = AStatus.completed ∨ appt.status = AStatus.cancelled
      · left
        rw [((cancelAppointment_spec st actor aid appt hfind).2 hauth).1 hterm]
      · right
        push_neg at hterm
        have hlive : appt.status = AStatus.pending ∨ appt.status = AStatus.confirmed := by
          cases h : appt.status
          · exact Or.inl rfl
          · exact Or.inr rfl
          · exact absurd h hterm.1
          · exact absurd h hterm.2
        refine ⟨appt, rfl, hterm.1, hterm.2, ?_⟩
        rw [((cancelAppointment_spec st actor aid appt hfind).2 hauth).2 hlive]

theorem findApptById_mem (st : St) (aid : Nat) (appt : Appointment)
    (h : findApptById st aid = some appt) : appt ∈ st.appointments :=
  List.mem_of_find?_eq_some h

theorem findApptById_id (st : St) (aid : Nat) (appt : Appointment)
    (h : findApptById st aid = some appt) : appt.id = aid := by
  have hp := List.find?_some h
  rwa [beq_iff_eq] at hp

theorem mem_setApptStatusById (l : List Appointment) (aid : Nat) (ns : AStatus)
    (a' : Appointment) (h : a' ∈ setApptStatusById l aid ns) :
    ∃ a ∈ l, a' = if a.id == aid then { a with status := ns } else a := by
  unfold setApptStatusById at h
  rw [List.mem_map] at h
  obtain ⟨a, ha, heq⟩ := h
  exact ⟨a, ha, heq.symm⟩

theorem updateAppointmentStatus_state_cases (st : St) (actor : Actor) (aid : Nat)
    (s : String) :
    (updateAppointmentStatus st actor aid (some s)).1 = st ∨
    ∃ appt, findApptById st aid = some appt ∧
      (s = "completed" → appt.status = AStatus.confirmed) ∧
      (s = "confirmed" → appt.status = AStatus.pending) ∧
      (updateAppointmentStatus st actor aid (some s)).1 =
        { st with appointments :=
            setApptStatusById st.appointments aid (aStatusOfValidated (jsToLower s)) } := by
  by_cases hval : (["confirmed", "cancelled", "completed"].contains (jsToLower s)) = true
  case neg =>
    left
    rw [Bool.not_eq_true] at hval
    have heq : (updateAppointmentStatus st actor aid (some s)).1 = st := by
      unfold updateAppointmentStatus
      simp only [hval, Bool.not_false, if_true]
    exact heq
  case pos =>
    cases hfind : findApptById st aid with
    | none =>
      left
      unfold updateAppointmentStatus
      simp only [hval, Bool.not_true, Bool.false_eq_true, if_false, hfind]
    | some appt =>
      cases hauth : apptAuthorized st actor appt with
      | false =>
        left
        unfold updateAppointmentStatus
        simp only [hval, Bool.not_true, Bool.false_eq_true, if_false, hfind, hauth,
          Bool.not_false, if_true]
      | true =>
        by_cases hg1 : (s == "completed" && !(appt.status == AStatus.confirmed)) = true
        · left
          unfold updateAppointmentStatus
          simp only [hval, Bool.not_true, Bool.false_eq_true, if_false, hfind, hauth,
            Bool.not_false, hg1, if_true]
        · by_cases hg2 : (s == "confirmed" && !(appt.status == AStatus.pending)) = true
          · left
            unfold updateAppointmentStatus
            rw [Bool.not_eq_true] at hg1
            simp only [hval, Bool.not_true, Bool.false_eq_true, if_false, hfind, hauth,
              Bool.not_false, hg1, hg2, if_true]
          · right
            rw [Bool.not_eq_true] at hg1 hg2
            refine ⟨appt, rfl, ?_, ?_, ?_⟩
            · intro hsc
              subst hsc
              by_cases hc : appt.status = AStatus.confirmed
              · exact hc
              · exfalso
                simp [hc] at hg1
            · intro hsc
              subst hsc
              by_cases hc : appt.status = AStatus.pending
              · exact hc
              · exfalso
                simp [hc] at hg2
            · unfold updateAppointmentStatus
              simp only [hval, Bool.not_true, Bool.false_eq_true, if_false, hfind, hauth,
                Bool.not_false, hg1, hg2, if_true]

/-- Claim C4 (amended): what remains true of the terminal states.  A
cancelled appointment keeps status cancelled under `cancelAppointment`
and under `updateAppointmentStatus` for every exactly-lower-case status
the controller accepts; a completed appointment keeps status completed
under `cancelAppointment`.  (A completed appointment can still be turned
cancelled by `updateAppointmentStatus`, and mixed-case inputs bypass the
guards entirely, per the counterexample and claim C3.) -/
theorem terminal_appointment_states_amended (st : St) (actor : Actor) (aid : Nat) (s : String)
    (hs : s = "confirmed" ∨ s = "cancelled" ∨ s = "completed") :
    ((∀ a ∈ st.appointments, a.id = aid → a.status = AStatus.cancelled) →
      (∀ a' ∈ (updateAppointmentStatus st actor aid (some s)).1.appointments,
        a'.id = aid → a'.status = AStatus.cancelled) ∧
      (∀ a' ∈ (cancelAppointment st actor aid).1.appointments,
        a'.id = aid → a'.status = AStatus.cancelled)) ∧
    ((∀ a ∈ st.appointments, a.id = aid → a.status = AStatus.completed) →
      (∀ a' ∈ (cancelAppointment st actor aid).1.appointments,
        a'.id = aid → a'.status = AStatus.completed)) := by
  constructor
  · intro hpre
    constructor
    · rcases updateAppointmentStatus_state_cases st actor aid s with
        hst | ⟨appt, hfind, hg1, hg2, hst⟩
      · rw [hst]
        exact hpre
      · have happt : appt.status = AStatus.cancelled :=
          hpre appt (findApptById_mem st aid appt hfind) (findApptById_id st aid appt hfind)
        have hscan : s = "cancelled" := by
          rcases hs with rfl | rfl | rfl
          · rw [hg2 rfl] at happt
            cases happt
          · rfl
          · rw [hg1 rfl] at happt
            cases happt
        subst hscan
        rw [hst]
        intro a' ha' hid
        obtain ⟨a, ha, heq⟩ := mem_setApptStatusById st.appointments aid
          (aStatusOfValidated (jsToLower "cancelled")) a' ha'
        have hns : aStatusOfValidated (jsToLower "cancelled") = AStatus.cancelled := rfl
        rw [hns] at heq
        by_cases hida : a.id = aid
        · rw [heq, if_pos (by simp [hida])]
        · exfalso
          rw [heq, if_neg (by simp [hida])] at hid
          exact hida hid
    · rcases cancelAppointment_state_cases st actor aid with
        hst | ⟨appt, hfind, hnc, hncan, hst⟩
      · rw [hst]
        exact hpre
      · exact absurd
          (hpre appt (findApptById_mem st aid appt hfind) (findApptById_id st aid appt hfind))
          hncan
  · intro hpre
    rcases cancelAppointment_state_cases st actor aid with
      hst | ⟨appt, hfind, hnc, hncan, hst⟩
    · rw [hst]
      exact hpre
    · exact absurd
        (hpre appt (findApptById_mem st aid appt hfind) (findApptById_id st aid appt hfind))
        hnc

theorem slotConflict_eq_true_iff (did d : Nat) (sT : String) (a : Appointment) :
    slotConflict did d sT a = true ↔
      (a.doctor = did ∧ a.slot.date = d ∧ a.slot.startTime = sT ∧
        (a.status = AStatus.pending ∨ a.status = AStatus.confirmed)) := by
  unfold slotConflict
  rw [Bool.and_eq_true, Bool.and_eq_true, Bool.and_eq_true, Bool.or_eq_true]
  simp only [beq_iff_eq]
  tauto

/-- Claim C6: once the field, patient and doctor checks pass,
`bookAppointment` fails with Conflict exactly when some existing
appointment of the same doctor has the same slot date and startTime and
status pending or confirmed (endTime plays no role in the filter);
otherwise it appends exactly one new appointment, created with status
pending. -/
theorem booking_conflict_iff_duplicate_slot (st : St) (u did d : Nat) (sT eT : String)
    (pat : PatientProfile)
    (hpat : findPatientByUser st u = some pat)
    (hdoc : (findDoctorById st did).isSome = true) :
    ((∃ a ∈ st.appointments, a.doctor = did ∧ a.slot.date = d ∧ a.slot.startTime = sT ∧
        (a.status = AStatus.pending ∨ a.status = AStatus.confirmed)) ↔
      bookAppointment st u (some did) (some d) (some sT) (some eT) =
        (st, Except.error ApiErr.conflictSlot)) ∧
    (¬ (∃ a ∈ st.appointments, a.doctor = did ∧ a.slot.date = d ∧ a.slot.startTime = sT ∧
        (a.status = AStatus.pending ∨ a.status = AStatus.confirmed)) →
      ∃ appt, bookAppointment st u (some did) (some d) (some sT) (some eT) =
          ({ st with appointments := st.appointments ++ [appt],
                     nextApptId := st.nextApptId + 1 }, Except.ok appt) ∧
        appt.status = AStatus.pending ∧ appt.doctor = did ∧ appt.patient = pat.id ∧
        appt.slot.date = d ∧ appt.slot.startTime = sT ∧ appt.slot.endTime = eT) := by
  obtain ⟨dp, hdp⟩ := Option.isSome_iff_exists.mp hdoc
  cases hc : st.appointments.find? (slotConflict did d sT) with
  | some a0 =>
    have hres : bookAppointment st u (some did) (some d) (some sT) (some eT) =
        (st, Except.error ApiErr.conflictSlot) := by
      unfold bookAppointment
      simp only [hpat, hdp, hc]
    have hex : ∃ a ∈ st.appointments, a.doctor = did ∧ a.slot.date = d ∧
        a.slot.startTime = sT ∧
        (a.status = AStatus.pending ∨ a.status = AStatus.confirmed) :=
      ⟨a0, List.mem_of_find?_eq_some hc,
        (slotConflict_eq_true_iff did d sT a0).mp (List.find?_some hc)⟩
    exact ⟨⟨fun _ => hres, fun _ => hex⟩, fun hno => absurd hex hno⟩
  | none =>
    have hres : bookAppointment st u (some did) (some d) (some sT) (some eT) =
        ({ st with appointments := st.appointments ++ [newAppointment st did pat d sT eT],
                   nextApptId := st.nextApptId + 1 },
         Except.ok (newAppointment st did pat d sT eT)) := by
      unfold bookAppointment
      simp only [hpat, hdp, hc]
      rfl
    have hnoex : ¬ ∃ a ∈ st.appointments, a.doctor = did ∧ a.slot.date = d ∧
        a.slot.startTime = sT ∧
        (a.status = AStatus.pending ∨ a.status = AStatus.confirmed) := by
      intro ⟨a, ha, hprop⟩
      have := List.find?_eq_none.mp hc a ha
      exact this ((slotConflict_eq_true_iff did d sT a).mpr hprop)
    refine ⟨⟨fun hex => absurd hex hnoex, fun hre => ?_⟩, fun _ => ?_⟩
    · rw [hres] at hre
      have := congrArg Prod.snd hre
      simp at this
    · exact ⟨newAppointment st did pat d sT eT, hres, rfl, rfl, rfl, rfl, rfl, rfl⟩

/-- Claim C10: the duplicate check of `joinQueue` is scoped to one
doctor, so a patient with an active entry for doctor d1 can join doctor
d2's queue, after which two distinct active entries of the same patient
exist, while `getMyQueueStatus` (a findOne) returns exactly one matching
entry, not all of them. -/
theorem multi_doctor_queues_single_result (st : St) (u d1 d2 now : Nat)
    (pat : PatientProfile) (e1 : QueueEntry)
    (hpat : findPatientByUser st u = some pat)
    (hd2 : (findDoctorById st d2).isSome = true)
    (he1 : e1 ∈ st.entries) (he1d : e1.doctor = d1) (he1p : e1.patient = pat.id)
    (he1s : isActiveQ e1.status = true)
    (hne : ¬ d1 = d2)
    (hno : st.entries.find? (activeEntryFor d2 pat.id) = none) :
    ∃ st' newE, joinQueue st u (some d2) now = (st', Except.ok newE) ∧
      newE.doctor = d2 ∧ newE.patient = pat.id ∧ isActiveQ newE.status = true ∧
      e1 ∈ st'.entries ∧ newE ∈ st'.entries ∧ ¬ e1 = newE ∧
      ∃ m, getMyQueueStatus st' u = Except.ok (some m) ∧
        m ∈ st'.entries ∧ m.patient = pat.id ∧ isActiveQ m.status = true := by
  refine ⟨_, _, joinQueue_success st u d2 now pat hpat hd2 hno, rfl, rfl, rfl, ?_, ?_, ?_, ?_⟩
  · exact List.mem_append_left _ he1
  · exact List.mem_append_right _ (List.mem_singleton_self _)
  · intro hc
    have : e1.doctor = d2 := by rw [hc]; rfl
    rw [he1d] at this
    exact hne this
  · have hpat' : findPatientByUser
        { st with entries := st.entries ++ [joinEntry st d2 pat now],
                  nextQueueId := st.nextQueueId + 1 } u = some pat := hpat
    have hsome : ((st.entries ++ [joinEntry st d2 pat now]).find?
        (fun e => e.patient == pat.id && isActiveQ e.status)).isSome := by
      rw [List.find?_isSome]
      refine ⟨e1, List.mem_append_left _ he1, ?_⟩
      simp [he1p, he1s]
    obtain ⟨m, hm⟩ := Option.isSome_iff_exists.mp hsome
    have hprop := List.find?_some hm
    rw [Bool.and_eq_true, beq_iff_eq] at hprop
    refine ⟨m, ?_, List.mem_of_find?_eq_some hm, hprop.1, hprop.2⟩
    unfold getMyQueueStatus
    rw [hpat']
    show Except.ok ((st.entries ++ [joinEntry st d2 pat now]).find?
      (fun e => e.patient == pat.id && isActiveQ e.status)) = _
    rw [hm]

/-- Claim C3 (code bug): the transition guards of
`updateAppointmentStatus` compare the raw input string while validation
and the final write lower-case it, so the validated input Completed
(capital C) completes an appointment whose status is pending, which the
spec's strict state machine forbids.  This theorem evaluates the
embedded controller at that failing input. -/
theorem mixedcase_completed_bypasses_transition_guard :
    apptPend.status = AStatus.pending ∧
    updateAppointmentStatus stA3 adminActor 1 (some "Completed") =
      ({ stA3 with appointments := [{ apptPend with status := AStatus.completed }] },
       Except.ok { apptPend with status := AStatus.completed }) :=
  ⟨rfl, rfl⟩

/-- Claim C4 counterexample: `updateAppointmentStatus` with status
cancelled has no source-state guard, so an authorized call turns a
completed appointment into a cancelled one — completed is not terminal
under `updateAppointmentStatus`, refuting the claim as stated. -/
theorem update_status_cancels_completed_appointment :
    apptComp.status = AStatus.completed ∧
    updateAppointmentStatus stA4 adminActor 1 (some "cancelled") =
      ({ stA4 with appointments := [{ apptComp with status := AStatus.cancelled }] },
       Except.ok { apptComp with status := AStatus.cancelled }) :=
  ⟨rfl, rfl⟩

/-- Claim C8 counterexample: `cancelAppointment` checks authorization
BEFORE the already-terminal guard, so an unauthorized caller cancelling
a completed appointment receives Forbidden, not the BadRequest the
claim promises for every completed or cancelled appointment. -/
theorem cancel_completed_by_stranger_is_forbidden :
    apptComp.status = AStatus.completed ∧
    cancelAppointment stA4 strangerActor 1 =
      (stA4, Except.error (ApiErr.forbidden "Unauthorized to cancel this appointment.")) :=
  ⟨rfl, rfl⟩

/-- Witness for claim C4: the amended theorem applied to a concrete
cancelled appointment with an admin caller and status confirmed. -/
theorem terminal_appointment_states_witness :
    ("confirmed" = "confirmed" ∨ "confirmed" = "cancelled" ∨ "confirmed" = "completed") ∧
    (((∀ a ∈ stA4c.appointments, a.id = 1 → a.status = AStatus.cancelled) →
      (∀ a' ∈ (updateAppointmentStatus stA4c adminActor 1 (some "confirmed")).1.appointments,
        a'.id = 1 → a'.status = AStatus.cancelled) ∧
      (∀ a' ∈ (cancelAppointment stA4c adminActor 1).1.appointments,
        a'.id = 1 → a'.status = AStatus.cancelled)) ∧
    ((∀ a ∈ stA4c.appointments, a.id = 1 → a.status = AStatus.completed) →
      (∀ a' ∈ (cancelAppointment stA4c adminActor 1).1.appointments,
        a'.id = 1 → a'.status = AStatus.completed))) :=
  ⟨Or.inl rfl, terminal_appointment_states_amended stA4c adminActor 1 "confirmed" (Or.inl rfl)⟩

/-- Claim C8 (amended): the full behaviour of `cancelAppointment` on an
existing appointment.  An unauthorized caller (not admin, not the owning
patient, not the owning doctor) gets Forbidden whatever the status; an
authorized caller gets BadRequest naming the current status when it is
already completed or cancelled, and otherwise succeeds, setting status
cancelled. -/
theorem cancel_authorization_then_terminal_guard (st : St) (actor : Actor) (aid : Nat) (appt : Appointment)
    (hfind : findApptById st aid = some appt) :
    (cancelAuthorized st actor appt = false →
      cancelAppointment st actor aid =
        (st, Except.error (ApiErr.forbidden "Unauthorized to cancel this appointment."))) ∧
    (cancelAuthorized st actor appt = true →
      ((appt.status = AStatus.completed ∨ appt.status = AStatus.cancelled) →
        cancelAppointment st actor aid = (st, Except.error (ApiErr.cancelGuard appt.status))) ∧
      ((appt.status = AStatus.pending ∨ appt.status = AStatus.confirmed) →
        cancelAppointment st actor aid =
          ({ st with appointments := setApptStatusById st.appointments aid AStatus.cancelled },
           Except.ok { appt with status := AStatus.cancelled }))) :=
  cancelAppointment_spec st actor aid appt hfind

/-- Witness for claim C8: the amended theorem applied to a concrete
pending appointment with an admin caller. -/
theorem cancel_authorization_witness :
    findApptById stA3 1 = some apptPend ∧
    ((cancelAuthorized stA3 adminActor apptPend = false →
      cancelAppointment stA3 adminActor 1 =
        (stA3, Except.error (ApiErr.forbidden "Unauthorized to cancel this appointment."))) ∧
    (cancelAuthorized stA3 adminActor apptPend = true →
      ((apptPend.status = AStatus.completed ∨ apptPend.status = AStatus.cancelled) →
        cancelAppointment stA3 adminActor 1 =
          (stA3, Except.error (ApiErr.cancelGuard apptPend.status))) ∧
      ((apptPend.status = AStatus.pending ∨ apptPend.status = AStatus.confirmed) →
        cancelAppointment stA3 adminActor 1 =
          ({ stA3 with appointments := setApptStatusById stA3.appointments 1 AStatus.cancelled },
           Except.ok { apptPend with status := AStatus.cancelled })))) :=
  ⟨rfl, cancel_authorization_then_terminal_guard stA3 adminActor 1 apptPend rfl⟩

/-- Witness for claim C5: a second join by patient 1 to doctor 1 in a
concrete one-entry state conflicts at position 1 and leaves the state
unchanged. -/
theorem duplicate_join_conflict_witness :
    findPatientByUser stW5 1 = some patA ∧
    (findDoctorById stW5 1).isSome = true ∧
    (∃ e ∈ stW5.entries, e.doctor = 1 ∧ e.patient = patA.id ∧
      (e.status = QStatus.waiting ∨ e.status = QStatus.inProgress)) ∧
    (∃ ex ∈ stW5.entries, ex.doctor = 1 ∧ ex.patient = patA.id ∧
      (ex.status = QStatus.waiting ∨ ex.status = QStatus.inProgress) ∧
      joinQueue stW5 1 (some 1) 5 = (stW5, Except.error (ApiErr.conflictJoin ex.position))) :=
  ⟨rfl, rfl, by decide,
    duplicate_join_conflict stW5 1 1 5 patA rfl rfl (by decide)⟩

/-- Witness for claim C7: patient 1 joining doctor 1's empty queue at
time 7. -/
theorem join_assigns_next_position_witness :
    findPatientByUser stQ0 1 = some patA ∧
    (findDoctorById stQ0 1).isSome = true ∧
    stQ0.entries.find? (activeEntryFor 1 patA.id) = none ∧
    (∃ st' entry, joinQueue stQ0 1 (some 1) 7 = (st', Except.ok entry) ∧
      entry.status = QStatus.waiting ∧
      entry.estimatedTime = 7 + (entry.position - 1) * 15 ∧
      (∀ e ∈ stQ0.entries, e.doctor = 1 → e.status = QStatus.waiting →
        e.position < entry.position) ∧
      (entry.position = 1 ∨
        ∃ e ∈ stQ0.entries, e.doctor = 1 ∧ e.status = QStatus.waiting ∧
          e.position + 1 = entry.position)) :=
  ⟨rfl, rfl, rfl, join_assigns_next_position stQ0 1 1 7 patA rfl rfl rfl⟩

/-- Witness for claim C6: booking against a concrete state holding one
pending appointment for the same doctor, date and startTime. -/
theorem booking_conflict_witness :
    findPatientByUser stA3 1 = some patA ∧
    (findDoctorById stA3 1).isSome = true ∧
    (((∃ a ∈ stA3.appointments, a.doctor = 1 ∧ a.slot.date = 0 ∧
        a.slot.startTime = "09:00" ∧
        (a.status = AStatus.pending ∨ a.status = AStatus.confirmed)) ↔
      bookAppointment stA3 1 (some 1) (some 0) (some "09:00") (some "09:30") =
        (stA3, Except.error ApiErr.conflictSlot)) ∧
    (¬ (∃ a ∈ stA3.appointments, a.doctor = 1 ∧ a.slot.date = 0 ∧
        a.slot.startTime = "09:00" ∧
        (a.status = AStatus.pending ∨ a.status = AStatus.confirmed)) →
      ∃ appt, bookAppointment stA3 1 (some 1) (some 0) (some "09:00") (some "09:30") =
          ({ stA3 with appointments := stA3.appointments ++ [appt],
                       nextApptId := stA3.nextApptId + 1 }, Except.ok appt) ∧
        appt.status = AStatus.pending ∧ appt.doctor = 1 ∧ appt.patient = patA.id ∧
        appt.slot.date = 0 ∧ appt.slot.startTime = "09:00" ∧
        appt.slot.endTime = "09:30")) :=
  ⟨rfl, rfl, booking_conflict_iff_duplicate_slot stA3 1 1 0 "09:00" "09:30" patA rfl rfl⟩

/-- Witness for claim C10: patient 1 with an active entry for doctor 1
joins doctor 2's queue in a concrete state. -/
theorem two_queue_memberships_witness :
    findPatientByUser stW10 1 = some patA ∧
    (findDoctorById stW10 2).isSome = true ∧
    qe5 ∈ stW10.entries ∧ qe5.doctor = 1 ∧ qe5.patient = patA.id ∧
    isActiveQ qe5.status = true ∧ ¬ (1 : Nat) = 2 ∧
    stW10.entries.find? (activeEntryFor 2 patA.id) = none ∧
    (∃ st' newE, joinQueue stW10 1 (some 2) 3 = (st', Except.ok newE) ∧
      newE.doctor = 2 ∧ newE.patient = patA.id ∧ isActiveQ newE.status = true ∧
      qe5 ∈ st'.entries ∧ newE ∈ st'.entries ∧ ¬ qe5 = newE ∧
      ∃ m, getMyQueueStatus st' 1 = Except.ok (some m) ∧
        m ∈ st'.entries ∧ m.patient = patA.id ∧ isActiveQ m.status = true) :=
  ⟨rfl, rfl, by decide, rfl, rfl, rfl, by decide, rfl,
    multi_doctor_queues_single_result stW10 1 1 2 3 patA qe5 rfl rfl (by decide)
      rfl rfl rfl (by decide) rfl⟩

end Hospital
